import Mathlib

/-!
Verification development for the spaced-repetition service.

The scheduling engine is `calculateSM2` in the review routes module, together
with the `/due`, `/stats` and `/submit` endpoints operating over the SQLite
card store. JavaScript `number` arithmetic on the quantities involved is
modelled exactly over `ℚ`; timestamps are modelled as rationals measured in
days, so the calendar date of a timestamp `t` is `⌊t⌋` (SQLite's `date(...)`
truncation to day granularity).
-/

/-- JavaScript `Math.round`: rounds to the nearest integer, halves toward
positive infinity. -/
def jsRound (x : ℚ) : ℤ := ⌊x + 1/2⌋

/-- The rounded-then-clamped quality computed by `calculateSM2`:
`Math.max(0, Math.min(5, Math.round(quality)))`. -/
def clampQuality (quality : ℚ) : ℤ := max 0 (min 5 (jsRound quality))

/-- The record returned by `calculateSM2`. -/
structure SM2Result where
  easeFactor : ℚ
  interval : ℚ
  repetitions : ℚ
deriving Repr, DecidableEq

/-- The SM-2 scheduler (`calculateSM2` in the review routes module).
The quality is rounded then clamped to `[0,5]`; on failed recall
(`quality < 3`) repetitions reset to 0 and the interval to 1; on success the
interval is 1, 6, or `round(interval * easeFactor)` according to the prior
repetition count, and repetitions increment. The ease factor is updated in
both branches from the prior ease factor and the clamped quality, then
floored at 1.3. -/
def calculateSM2 (quality easeFactor interval repetitions : ℚ) : SM2Result :=
  let q : ℤ := clampQuality quality
  let newInterval : ℚ :=
    if q < 3 then 1
    else if repetitions = 0 then 1
    else if repetitions = 1 then 6
    else ((jsRound (interval * easeFactor) : ℤ) : ℚ)
  let newRepetitions : ℚ := if q < 3 then 0 else repetitions + 1
  let ef : ℚ :=
    easeFactor + (1/10 - (5 - (q : ℚ)) * (8/100 + (5 - (q : ℚ)) * (2/100)))
  let newEaseFactor : ℚ := if ef < 13/10 then 13/10 else ef
  { easeFactor := newEaseFactor, interval := newInterval,
    repetitions := newRepetitions }

example : calculateSM2 2 (5/2) 10 5 = ⟨5/2 - 32/100, 1, 0⟩ := by
  norm_num [calculateSM2, clampQuality, jsRound]

example : calculateSM2 4 (5/2) 0 0 = ⟨5/2, 1, 1⟩ := by
  norm_num [calculateSM2, clampQuality, jsRound]

example : calculateSM2 4 (5/2) 1 1 = ⟨5/2, 6, 2⟩ := by
  norm_num [calculateSM2, clampQuality, jsRound]

example : calculateSM2 4 (5/2) 6 2 = ⟨5/2, 15, 3⟩ := by
  norm_num [calculateSM2, clampQuality, jsRound]

example : (calculateSM2 5 (5/2) 6 2).easeFactor = 26/10 := by
  norm_num [calculateSM2, clampQuality, jsRound]

/-- C1: if the rounded-then-clamped quality is < 3 the result has
`repetitions' = 0` and `interval' = 1` regardless of prior state; otherwise
`repetitions' = repetitions + 1` and `interval'` is 1 when prior repetitions
is 0, 6 when it is 1, and `round(interval * easeFactor)` when it is ≥ 2. -/
theorem calculateSM2_branch_spec (quality easeFactor interval repetitions : ℚ) :
    (clampQuality quality < 3 →
      (calculateSM2 quality easeFactor interval repetitions).repetitions = 0 ∧
      (calculateSM2 quality easeFactor interval repetitions).interval = 1) ∧
    (3 ≤ clampQuality quality →
      (calculateSM2 quality easeFactor interval repetitions).repetitions
          = repetitions + 1 ∧
      (repetitions = 0 →
        (calculateSM2 quality easeFactor interval repetitions).interval = 1) ∧
      (repetitions = 1 →
        (calculateSM2 quality easeFactor interval repetitions).interval = 6) ∧
      (∀ n : ℕ, repetitions = (n : ℚ) → 2 ≤ n →
        (calculateSM2 quality easeFactor interval repetitions).interval
          = ((jsRound (interval * easeFactor) : ℤ) : ℚ))) := by
  constructor
  · intro h
    simp [calculateSM2, h]
  · intro h
    have h3 : ¬ (clampQuality quality < 3) := not_lt.mpr h
    refine ⟨by simp [calculateSM2, h3], ?_, ?_, ?_⟩
    · intro h0
      simp [calculateSM2, h3, h0]
    · intro h1
      simp [calculateSM2, h3, h1]
    · intro n hn h2
      subst hn
      have hn0 : (n : ℚ) ≠ 0 := by exact_mod_cast (by omega : n ≠ 0)
      have hn1 : (n : ℚ) ≠ 1 := by exact_mod_cast (by omega : n ≠ 1)
      simp [calculateSM2, h3, hn0, hn1]

/-- Witness for C1 at concrete inputs covering the failure branch and the
`repetitions ≥ 2` success branch. -/
theorem calculateSM2_branch_spec_witness :
    (calculateSM2 2 (5/2) 10 5).repetitions = 0 ∧
    (calculateSM2 4 (5/2) 6 2).interval = ((jsRound (6 * (5/2)) : ℤ) : ℚ) := by
  refine ⟨((calculateSM2_branch_spec 2 (5/2) 10 5).1 ?_).1,
    (((calculateSM2_branch_spec 4 (5/2) 6 2).2 ?_).2.2.2) 2 (by norm_num)
      (by norm_num)⟩
  · norm_num [clampQuality, jsRound]
  · norm_num [clampQuality, jsRound]

/-- The ease factor returned by `calculateSM2`, as a `max` with the 1.3
floor; it depends only on the prior ease factor and the clamped quality. -/
theorem sm2_easeFactor_eq (quality easeFactor interval repetitions : ℚ) :
    (calculateSM2 quality easeFactor interval repetitions).easeFactor =
      max (13/10)
        (easeFactor + (1/10 - (5 - (clampQuality quality : ℚ)) *
          (8/100 + (5 - (clampQuality quality : ℚ)) * (2/100)))) := by
  simp only [calculateSM2]
  split
  · rename_i h
    exact (max_eq_left h.le).symm
  · rename_i h
    exact (max_eq_right (not_lt.mp h)).symm

/-- C2: in both branches the returned ease factor is
`max(1.3, easeFactor + (0.1 − (5 − q)(0.08 + (5 − q)·0.02)))` with `q` the
rounded-then-clamped quality; it depends only on the prior ease factor and
the clamped quality, never the post-update interval or repetitions. -/
theorem calculateSM2_easeFactor_spec
    (quality easeFactor interval repetitions : ℚ) :
    (calculateSM2 quality easeFactor interval repetitions).easeFactor =
      max (13/10)
        (easeFactor + (1/10 - (5 - (clampQuality quality : ℚ)) *
          (8/100 + (5 - (clampQuality quality : ℚ)) * (2/100)))) :=
  sm2_easeFactor_eq quality easeFactor interval repetitions

/-- The returned ease factor never drops below the 1.3 floor, for any input. -/
theorem sm2_easeFactor_ge_floor (q e i r : ℚ) :
    13/10 ≤ (calculateSM2 q e i r).easeFactor := by
  rw [sm2_easeFactor_eq]
  exact le_max_left _ _

/-- The memory state carried by a card: ease factor, interval (days) and
consecutive-success count. -/
structure SM2State where
  easeFactor : ℚ
  interval : ℚ
  repetitions : ℚ
deriving Repr, DecidableEq

/-- The defaults of the `cards` table schema:
`ease_factor REAL DEFAULT 2.5, interval INTEGER DEFAULT 0,
repetitions INTEGER DEFAULT 0`. -/
def initialMemoryState : SM2State := ⟨5/2, 0, 0⟩

/-- One review applied to a memory state via `calculateSM2`. -/
def sm2Step (s : SM2State) (quality : ℚ) : SM2State :=
  let r := calculateSM2 quality s.easeFactor s.interval s.repetitions
  ⟨r.easeFactor, r.interval, r.repetitions⟩

/-- A finite sequence of reviews applied in order. -/
def sm2Run (s : SM2State) (qs : List ℚ) : SM2State := qs.foldl sm2Step s

theorem sm2Run_ease_ge_floor :
    ∀ (qs : List ℚ) (s : SM2State), 13/10 ≤ s.easeFactor →
      13/10 ≤ (sm2Run s qs).easeFactor := by
  intro qs
  induction qs with
  | nil => intro s h; exact h
  | cons q qs ih =>
      intro s _
      exact ih (sm2Step s q) (sm2_easeFactor_ge_floor q s.easeFactor
        s.interval s.repetitions)

/-- C3: starting from any state with ease factor ≥ 1.3 (in particular the
initial 2.5), the ease factor stays ≥ 1.3 after any single call and after
every finite sequence of calls, for arbitrary quality inputs. -/
theorem sm2_ease_floor_invariant (s : SM2State) (qs : List ℚ)
    (h : 13/10 ≤ s.easeFactor) :
    (∀ q : ℚ, 13/10 ≤ (sm2Step s q).easeFactor) ∧
    13/10 ≤ (sm2Run s qs).easeFactor :=
  ⟨fun q => sm2_easeFactor_ge_floor q s.easeFactor s.interval s.repetitions,
    sm2Run_ease_ge_floor qs s h⟩

/-- Witness for C3: the initial state (ease 2.5) run through three
low-quality reviews. -/
theorem sm2_ease_floor_invariant_witness :
    13/10 ≤ (sm2Run initialMemoryState [0, 0, 0]).easeFactor :=
  (sm2_ease_floor_invariant initialMemoryState [0, 0, 0]
    (by norm_num [initialMemoryState])).2

theorem calculateSM2_congr_of_clamp_eq (q₁ q₂ e i r : ℚ)
    (h : clampQuality q₁ = clampQuality q₂) :
    calculateSM2 q₁ e i r = calculateSM2 q₂ e i r := by
  simp only [calculateSM2, h]

/-- C4: `calculateSM2` first rounds the quality, then clamps it to `[0,5]`;
`advance(-1, s) = advance(0, s)`, `advance(10, s) = advance(5, s)`, and any
two qualities with the same rounded-then-clamped value give equal results. -/
theorem calculateSM2_clamp_spec :
    (∀ e i r : ℚ, calculateSM2 (-1) e i r = calculateSM2 0 e i r) ∧
    (∀ e i r : ℚ, calculateSM2 10 e i r = calculateSM2 5 e i r) ∧
    (∀ q₁ q₂ e i r : ℚ, clampQuality q₁ = clampQuality q₂ →
      calculateSM2 q₁ e i r = calculateSM2 q₂ e i r) := by
  refine ⟨fun e i r => calculateSM2_congr_of_clamp_eq _ _ e i r ?_,
    fun e i r => calculateSM2_congr_of_clamp_eq _ _ e i r ?_,
    calculateSM2_congr_of_clamp_eq⟩
  · norm_num [clampQuality, jsRound]
  · norm_num [clampQuality, jsRound]

/-- Witness for C4: two distinct fractional qualities that round-then-clamp
to the same value (3) give identical results. -/
theorem calculateSM2_clamp_spec_witness :
    calculateSM2 (17/5) 2 3 4 = calculateSM2 (10/3) 2 3 4 :=
  calculateSM2_clamp_spec.2.2 (17/5) (10/3) 2 3 4
    (by norm_num [clampQuality, jsRound])

theorem jsRound_mono {x y : ℚ} (h : x ≤ y) : jsRound x ≤ jsRound y :=
  Int.floor_le_floor (by linarith)

theorem clampQuality_mono {x y : ℚ} (h : x ≤ y) :
    clampQuality x ≤ clampQuality y :=
  max_le_max le_rfl (min_le_min le_rfl (jsRound_mono h))

theorem clampQuality_le_five (q : ℚ) : clampQuality q ≤ 5 :=
  max_le (by norm_num) (min_le_left _ _)

theorem clampQuality_nonneg (q : ℚ) : 0 ≤ clampQuality q :=
  le_max_left _ _

theorem easeDelta_mono {a b : ℤ} (hab : a ≤ b) (hb5 : b ≤ 5) :
    1/10 - (5 - (a : ℚ)) * (8/100 + (5 - (a : ℚ)) * (2/100)) ≤
      1/10 - (5 - (b : ℚ)) * (8/100 + (5 - (b : ℚ)) * (2/100)) := by
  have h1 : (b : ℚ) ≤ 5 := by exact_mod_cast hb5
  have h2 : (a : ℚ) ≤ (b : ℚ) := by exact_mod_cast hab
  nlinarith [mul_nonneg (sub_nonneg.mpr h2) (sub_nonneg.mpr h1),
    mul_nonneg (sub_nonneg.mpr h2)
      (add_nonneg (sub_nonneg.mpr h1) (sub_nonneg.mpr (h2.trans h1)))]

/-- C7: for a fixed prior state the returned ease factor is monotonically
non-decreasing in the quality over `[0,5]`; quality 5 raises the ease factor
by exactly 0.1 (strictly, given the 1.3 invariant) and quality 0 lowers it
by 0.8 subject to the 1.3 floor. -/
theorem calculateSM2_ease_monotone (e i r : ℚ) :
    (∀ q₁ q₂ : ℚ, 0 ≤ q₁ → q₂ ≤ 5 → q₁ ≤ q₂ →
      (calculateSM2 q₁ e i r).easeFactor ≤
        (calculateSM2 q₂ e i r).easeFactor) ∧
    (13/10 ≤ e →
      (calculateSM2 5 e i r).easeFactor = e + 1/10 ∧
      e < (calculateSM2 5 e i r).easeFactor) ∧
    (calculateSM2 0 e i r).easeFactor = max (13/10) (e - 8/10) := by
  refine ⟨?_, ?_, ?_⟩
  · intro q₁ q₂ _ _ h
    rw [sm2_easeFactor_eq, sm2_easeFactor_eq]
    exact max_le_max le_rfl (add_le_add_left
      (easeDelta_mono (clampQuality_mono h) (clampQuality_le_five q₂)) e)
  · intro he
    have h5 : clampQuality 5 = 5 := by norm_num [clampQuality, jsRound]
    have : (calculateSM2 5 e i r).easeFactor = e + 1/10 := by
      rw [sm2_easeFactor_eq, h5]
      rw [max_eq_right (by push_cast; linarith)]
      push_cast
      ring
    exact ⟨this, by rw [this]; linarith⟩
  · have h0 : clampQuality 0 = 0 := by norm_num [clampQuality, jsRound]
    rw [sm2_easeFactor_eq, h0]
    norm_num
    congr 1
    ring

/-- Witness for C7 at concrete qualities 1 ≤ 3 and at quality 5 with the
initial ease factor 2.5. -/
theorem calculateSM2_ease_monotone_witness :
    (calculateSM2 1 (5/2) 6 2).easeFactor ≤
      (calculateSM2 3 (5/2) 6 2).easeFactor ∧
    (calculateSM2 5 (5/2) 6 2).easeFactor = 5/2 + 1/10 :=
  ⟨(calculateSM2_ease_monotone (5/2) 6 2).1 1 3 (by norm_num) (by norm_num)
      (by norm_num),
    ((calculateSM2_ease_monotone (5/2) 6 2).2.1 (by norm_num)).1⟩

/-- C10: quality 4 leaves the ease factor unchanged on any state satisfying
the ≥ 1.3 invariant (the update delta is exactly zero), while repetitions
still increment and the interval still takes the success branch. -/
theorem calculateSM2_quality4_spec (e i r : ℚ) (he : 13/10 ≤ e) :
    (calculateSM2 4 e i r).easeFactor = e ∧
    (calculateSM2 4 e i r).repetitions = r + 1 ∧
    (calculateSM2 4 e i r).interval =
      (if r = 0 then 1 else if r = 1 then 6
        else ((jsRound (i * e) : ℤ) : ℚ)) := by
  have hc : clampQuality 4 = 4 := by norm_num [clampQuality, jsRound]
  refine ⟨?_, ?_, ?_⟩
  · rw [sm2_easeFactor_eq, hc]
    push_cast
    rw [show e + (1/10 - (5 - (4:ℚ)) * (8/100 + (5 - (4:ℚ)) * (2/100))) = e
      by ring]
    exact max_eq_right he
  · norm_num [calculateSM2, hc]
  · norm_num [calculateSM2, hc]

/-- Witness for C10 at the initial ease factor 2.5. -/
theorem calculateSM2_quality4_spec_witness :
    (calculateSM2 4 (5/2) 6 2).easeFactor = 5/2 :=
  (calculateSM2_quality4_spec (5/2) 6 2 (by norm_num)).1

/-- A row of the `decks` table (the columns the review routes use). -/
structure Deck where
  id : ℤ
  user_id : ℤ
deriving Repr, DecidableEq

/-- A row of the `cards` table (the columns the review routes use).
`due_date` is a timestamp in days; its calendar date is `⌊due_date⌋`. -/
structure Card where
  id : ℤ
  deck_id : ℤ
  ease_factor : ℚ
  interval : ℚ
  repetitions : ℚ
  due_date : ℚ
deriving Repr, DecidableEq

/-- A row of the `review_history` table as inserted by the submit route. -/
structure ReviewRecord where
  card_id : ℤ
  quality : ℚ
  ease_factor : ℚ
  interval : ℚ
deriving Repr, DecidableEq

/-- The database state the review routes read and write. -/
structure Store where
  decks : List Deck
  cards : List Card
  history : List ReviewRecord
deriving Repr, DecidableEq

/-- The `JOIN decks d ON c.deck_id = d.id WHERE d.user_id = ?` ownership
condition. -/
def cardOwned (s : Store) (userId : ℤ) (c : Card) : Bool :=
  s.decks.any (fun d => d.id == c.deck_id && d.user_id == userId)

/-- The candidate set of the review queries: the user's cards, optionally
restricted to one deck (`AND c.deck_id = ?`). -/
def candidateCards (s : Store) (userId : ℤ) (deckId : Option ℤ) : List Card :=
  s.cards.filter (fun c => cardOwned s userId c &&
    (match deckId with
     | none => true
     | some d => c.deck_id == d))

/-- The `/due` query: candidates with `date(c.due_date) <= date('now')`,
`ORDER BY c.due_date ASC LIMIT 50` (stable sort, so ties keep table order). -/
def selectDue (s : Store) (userId : ℤ) (deckId : Option ℤ) (now : ℚ) :
    List Card :=
  (((candidateCards s userId deckId).filter
      (fun c => decide (⌊c.due_date⌋ ≤ ⌊now⌋))).mergeSort
    (fun a b => decide (a.due_date ≤ b.due_date))).take 50

/-- C6: `/due` returns only candidate cards that are due by calendar-date
comparison, in ascending `due_date` order, at most 50 of them; and whenever
at most 50 candidates are due it returns exactly the due candidates. -/
theorem selectDue_spec (s : Store) (u : ℤ) (df : Option ℤ) (now : ℚ) :
    (selectDue s u df now).length ≤ 50 ∧
    List.Sorted (fun a b : Card => a.due_date ≤ b.due_date)
      (selectDue s u df now) ∧
    (∀ c ∈ selectDue s u df now,
      c ∈ candidateCards s u df ∧ ⌊c.due_date⌋ ≤ ⌊now⌋) ∧
    (((candidateCards s u df).filter
        (fun c => decide (⌊c.due_date⌋ ≤ ⌊now⌋))).length ≤ 50 →
      ∀ c, c ∈ selectDue s u df now ↔
        c ∈ candidateCards s u df ∧ ⌊c.due_date⌋ ≤ ⌊now⌋) := by
  refine ⟨List.length_take_le _ _, ?_, ?_, ?_⟩
  · have hs := @List.sorted_mergeSort Card
      (fun a b : Card => decide (a.due_date ≤ b.due_date))
      (fun a b c hab hbc => by
        simp only [decide_eq_true_eq] at *
        exact hab.trans hbc)
      (fun a b => by
        simp only [Bool.or_eq_true, decide_eq_true_eq]
        exact le_total _ _)
      ((candidateCards s u df).filter
        (fun c => decide (⌊c.due_date⌋ ≤ ⌊now⌋)))
    have hp : List.Pairwise (fun a b : Card => a.due_date ≤ b.due_date)
        (((candidateCards s u df).filter
          (fun c => decide (⌊c.due_date⌋ ≤ ⌊now⌋))).mergeSort
          (fun a b => decide (a.due_date ≤ b.due_date))) :=
      hs.imp (fun h => of_decide_eq_true h)
    exact hp.sublist (List.take_sublist _ _)
  · intro c hc
    have hm : c ∈ ((candidateCards s u df).filter
        (fun c => decide (⌊c.due_date⌋ ≤ ⌊now⌋))) :=
      List.mem_mergeSort.mp (List.mem_of_mem_take hc)
    have := List.mem_filter.mp hm
    exact ⟨this.1, of_decide_eq_true this.2⟩
  · intro hlen c
    have hlen' : (((candidateCards s u df).filter
        (fun c => decide (⌊c.due_date⌋ ≤ ⌊now⌋))).mergeSort
        (fun a b => decide (a.due_date ≤ b.due_date))).length ≤ 50 := by
      rwa [(List.mergeSort_perm _ _).length_eq]
    rw [selectDue, List.take_of_length_le hlen', List.mem_mergeSort,
      List.mem_filter]
    simp only [decide_eq_true_eq]

/-- A one-user, one-deck store used for concrete instances. -/
def wDeck : Deck := ⟨1, 1⟩

/-- A card due late on day 100 (23:45, as a day fraction). -/
def wCardLate : Card := ⟨1, 1, 5/2, 0, 0, 100 + 99/100⟩

/-- Store holding `wCardLate` in the deck of user 1. -/
def wStore : Store := ⟨[wDeck], [wCardLate], []⟩

/-- Witness for C6: early on day 100 (00:14) the card due at 23:45 the same
day is selected — the comparison is by calendar date, not full timestamp. -/
theorem selectDue_spec_witness :
    wCardLate ∈ selectDue wStore 1 none (100 + 1/100) := by
  refine ((selectDue_spec wStore 1 none (100 + 1/100)).2.2.2 ?_
    wCardLate).mpr ⟨?_, ?_⟩
  · norm_num [candidateCards, cardOwned, wStore, wDeck, wCardLate,
      List.filter]
  · norm_num [candidateCards, cardOwned, wStore, wDeck, wCardLate,
      List.filter]
  · norm_num [wCardLate]

/-- The scalar row of the `/stats` query: `COUNT(*)` and the three
`COUNT(CASE WHEN ...)` aggregates over the candidate set. -/
structure ReviewStats where
  total_cards : ℕ
  due_now : ℕ
  new_cards : ℕ
  review_cards : ℕ
deriving Repr, DecidableEq

/-- The `/stats` aggregates: total, due by calendar date, `repetitions = 0`,
and `repetitions > 0 AND date(due_date) <= date('now')`. -/
def reviewStats (s : Store) (u : ℤ) (df : Option ℤ) (today : ℤ) :
    ReviewStats :=
  let cs := candidateCards s u df
  { total_cards := cs.length,
    due_now := cs.countP (fun c => decide (⌊c.due_date⌋ ≤ today)),
    new_cards := cs.countP (fun c => decide (c.repetitions = 0)),
    review_cards := cs.countP (fun c => decide (0 < c.repetitions) &&
      decide (⌊c.due_date⌋ ≤ today)) }

/-- The per-day bucket of the upcoming histogram: candidates whose due date
is day `d`, restricted to `date('now') < date(due) <= date('now','+7 days')`. -/
def upcomingCount (s : Store) (u : ℤ) (df : Option ℤ) (today d : ℤ) : ℕ :=
  (candidateCards s u df).countP (fun c => decide (⌊c.due_date⌋ = d) &&
    decide (today < ⌊c.due_date⌋) && decide (⌊c.due_date⌋ ≤ today + 7))

/-- C8: the stats are the candidate-set total, the calendar-date due count,
the `repetitions = 0` count (regardless of dueness), and the count of due
cards with `repetitions > 0`; the histogram covers exactly the days strictly
after today and at most today + 7. -/
theorem reviewStats_spec (s : Store) (u : ℤ) (df : Option ℤ) (today : ℤ) :
    (reviewStats s u df today).total_cards = (candidateCards s u df).length ∧
    (reviewStats s u df today).due_now =
      ((candidateCards s u df).filter
        (fun c => decide (⌊c.due_date⌋ ≤ today))).length ∧
    (reviewStats s u df today).new_cards =
      ((candidateCards s u df).filter
        (fun c => decide (c.repetitions = 0))).length ∧
    (reviewStats s u df today).review_cards =
      ((candidateCards s u df).filter
        (fun c => decide (0 < c.repetitions) &&
          decide (⌊c.due_date⌋ ≤ today))).length ∧
    (∀ d : ℤ, 0 < upcomingCount s u df today d →
      today < d ∧ d ≤ today + 7) ∧
    (∀ d : ℤ, today < d → d ≤ today + 7 →
      upcomingCount s u df today d =
        ((candidateCards s u df).filter
          (fun c => decide (⌊c.due_date⌋ = d))).length) := by
  refine ⟨rfl, List.countP_eq_length_filter _ _,
    List.countP_eq_length_filter _ _, List.countP_eq_length_filter _ _,
    ?_, ?_⟩
  · intro d hd
    obtain ⟨c, _, hc⟩ := List.countP_pos_iff.mp hd
    simp only [Bool.and_eq_true, decide_eq_true_eq] at hc
    obtain ⟨⟨h1, h2⟩, h3⟩ := hc
    exact ⟨h1 ▸ h2, h1 ▸ h3⟩
  · intro d hd1 hd2
    rw [upcomingCount, List.countP_eq_length_filter]
    congr 1
    apply List.filter_congr
    intro c _
    by_cases hc : ⌊c.due_date⌋ = d
    · simp [hc, hd1, hd2]
    · simp [hc]

/-- Witness for C8: the histogram bucket one day out for a store whose only
card is due late on day 100, reckoned from day 99. -/
theorem reviewStats_spec_witness :
    upcomingCount wStore 1 none 99 100 =
      ((candidateCards wStore 1 none).filter
        (fun c => decide (⌊c.due_date⌋ = 100))).length :=
  (reviewStats_spec wStore 1 none 99).2.2.2.2.2 100 (by norm_num)
    (by norm_num)

/-- The possible responses of the submit route (400, 404, or the updated
card). -/
inductive SubmitResult where
  | badRequest (msg : String)
  | notFound (msg : String)
  | ok (card : Option Card)
deriving Repr, DecidableEq

/-- The ownership-scoped card lookup of the submit route:
`WHERE c.id = ? AND d.user_id = ?`, first matching row. -/
def findCard (s : Store) (cardId userId : ℤ) : Option Card :=
  s.cards.find? (fun c => c.id == cardId && cardOwned s userId c)

/-- The `/submit` route: validates the quality range, looks up the card,
runs `calculateSM2`, sets the card's due date to `now + interval` days,
updates the card row and appends a `review_history` row carrying the
submitted quality and the new ease factor and interval. -/
def submitReview (s : Store) (userId cardId : ℤ) (quality now : ℚ) :
    Store × SubmitResult :=
  if quality < 0 ∨ 5 < quality then
    (s, .badRequest "Quality must be between 0 and 5")
  else
    match findCard s cardId userId with
    | none => (s, .notFound "Card not found")
    | some card =>
      let res := calculateSM2 quality card.ease_factor card.interval
        card.repetitions
      let newDue : ℚ := now + res.interval
      let newCards := s.cards.map (fun c =>
        if c.id == cardId then
          { c with
            ease_factor := res.easeFactor
            interval := res.interval
            repetitions := res.repetitions
            due_date := newDue }
        else c)
      let s' : Store := { s with
        cards := newCards
        history := s.history ++
          [⟨cardId, quality, res.easeFactor, res.interval⟩] }
      (s', .ok (newCards.find? (fun c => c.id == cardId)))

/-- C9: an out-of-range quality is rejected with the exact error message and
the store is untouched; for an accepted quality the scheduler's clamp
reduces to plain rounding (the clamp is unreachable), and a found card
yields a success response. -/
theorem submitReview_validation (s : Store) (u cid : ℤ) (q now : ℚ) :
    (q < 0 ∨ 5 < q →
      submitReview s u cid q now =
        (s, SubmitResult.badRequest "Quality must be between 0 and 5")) ∧
    (0 ≤ q → q ≤ 5 → clampQuality q = jsRound q) ∧
    (0 ≤ q → q ≤ 5 → ∀ card, findCard s cid u = some card →
      ∃ oc, (submitReview s u cid q now).2 = SubmitResult.ok oc) := by
  refine ⟨?_, ?_, ?_⟩
  · intro h
    rw [submitReview, if_pos h]
  · intro h0 h5
    have hr0 : (0:ℤ) ≤ jsRound q := by
      rw [jsRound, Int.le_floor]
      push_cast
      linarith
    have hr5 : jsRound q ≤ 5 := by
      have : jsRound q ≤ jsRound 5 := jsRound_mono h5
      have h55 : jsRound 5 = 5 := by norm_num [jsRound]
      omega
    rw [clampQuality, min_eq_right hr5, max_eq_right hr0]
  · intro h0 h5 card hfind
    have hcond : ¬ (q < 0 ∨ 5 < q) := by
      push_neg
      exact ⟨h0, h5⟩
    simp only [submitReview, if_neg hcond, hfind]
    exact ⟨_, rfl⟩

/-- Witness for C9: quality 6 is rejected leaving `wStore` unchanged, and
the accepted fractional quality 4.5 needs no clamping beyond rounding. -/
theorem submitReview_validation_witness :
    submitReview wStore 1 1 6 200 =
      (wStore, SubmitResult.badRequest "Quality must be between 0 and 5") ∧
    clampQuality (9/2) = jsRound (9/2) :=
  ⟨(submitReview_validation wStore 1 1 6 200).1 (Or.inr (by norm_num)),
    (submitReview_validation wStore 1 1 (9/2) 200).2.1 (by norm_num)
      (by norm_num)⟩

/-- C5 (amended): on an accepted submission the matched card's due date is
set to `now + interval'` days and in no other way, other cards are
untouched, and a history record is appended carrying the submitted quality
and the new ease factor and interval. -/
theorem submitReview_updates (s : Store) (u cid : ℤ) (q now : ℚ)
    (card : Card) (hq : ¬ (q < 0 ∨ 5 < q))
    (hfind : findCard s cid u = some card) :
    (∀ c ∈ (submitReview s u cid q now).1.cards, c.id = cid →
      c.due_date = now + (calculateSM2 q card.ease_factor card.interval
        card.repetitions).interval) ∧
    (∀ c ∈ s.cards, c.id ≠ cid → c ∈ (submitReview s u cid q now).1.cards) ∧
    (submitReview s u cid q now).1.history =
      s.history ++ [⟨cid, q,
        (calculateSM2 q card.ease_factor card.interval
          card.repetitions).easeFactor,
        (calculateSM2 q card.ease_factor card.interval
          card.repetitions).interval⟩] := by
  simp only [submitReview, if_neg hq, hfind]
  refine ⟨?_, ?_, by trivial⟩
  · intro c hc hcid
    obtain ⟨c₀, hc₀, rfl⟩ := List.mem_map.mp hc
    by_cases hb : c₀.id == cid
    · simp [hb]
    · rw [if_neg hb] at hcid ⊢
      exact absurd hcid (by simpa using hb)
  · intro c hc hne
    refine List.mem_map.mpr ⟨c, hc, ?_⟩
    rw [if_neg (by simpa using hne)]

/-- Witness for C5 on a concrete accepted review of the store's only card. -/
theorem submitReview_updates_witness :
    (submitReview wStore 1 1 4 200).1.history =
      [⟨1, 4, (calculateSM2 4 (5/2) 0 0).easeFactor,
        (calculateSM2 4 (5/2) 0 0).interval⟩] := by
  have h := (submitReview_updates wStore 1 1 4 200 wCardLate (by norm_num)
    (by norm_num [findCard, wStore, wCardLate, wDeck, cardOwned,
      List.find?])).2.2
  rw [h]
  simp [wStore, wCardLate]

/-- Counterexample to C5 as stated: the accepted fractional quality 2.5 is
recorded verbatim in the history, while the scheduler's rounded-then-clamped
quality is 3 — the record does not contain the clamped quality. -/
theorem submitReview_clamped_quality_cex :
    (submitReview wStore 1 1 (5/2) 200).1.history.map
        (fun rec => rec.quality) = [5/2] ∧
    clampQuality (5/2) = 3 ∧
    (5/2 : ℚ) ≠ ((clampQuality (5/2) : ℤ) : ℚ) := by
  refine ⟨?_, by norm_num [clampQuality, jsRound],
    by norm_num [clampQuality, jsRound]⟩
  norm_num [submitReview, wStore, wCardLate, wDeck, findCard, cardOwned,
    List.find?]
